import Mathlib

/-!
Verification development for the pyroblack repository.

The single source file under scrutiny is
`src/pyrogram/methods/users/set_profile_photo.py`.  Its coroutine
`set_profile_photo` is embedded below as a pure function from the client
oracles (`save_file`, `invoke`, Python truthiness of the invoke result) and
the call arguments to the returned boolean together with the ordered trace
of observable effects.  The collaborators the specification describes
(PartPlanner, UploadSession, ConcurrencyLimiter, the retry-driven upload
loop) are not part of the sources; they are modelled from the
specification text and marked as such.
-/

/-- A `photo`/`video` argument of `set_profile_photo`: a file path given as a
string, or a binary file-like object with its `.name` attribute set. -/
inductive FileArg
  | path (s : String)
  | stream (name : String)
deriving DecidableEq, Repr

/-- The Python value of the `emoji_background` parameter:
`None`, an `int`, or a `List[int]`. -/
inductive PyIntOrList
  | none
  | int (n : Int)
  | list (l : List Int)
deriving DecidableEq, Repr

/-- The `raw.types.VideoSizeEmojiMarkup(emoji_id=..., background_colors=...)` object. -/
structure VideoSizeEmojiMarkup where
  emoji_id : Int
  background_colors : List Int
deriving DecidableEq, Repr

/-- The `raw.functions.photos.UploadProfilePhoto(...)` request.  The `file` and `video`
fields hold whatever `save_file` returned (an opaque handle, or `none` when
`save_file` returned `None`). -/
structure UploadProfilePhoto where
  fallback : Option Bool
  file : Option Nat
  video_emoji_markup : Option VideoSizeEmojiMarkup
  video : Option Nat
deriving DecidableEq, Repr

/-- One observable effect of the coroutine.  `diskWrite` and `mutateClient`
are present in the type so that their absence from every trace is a
statement, not a typing accident. -/
inductive Event
  | saveFile (arg : Option FileArg)
  | invoke (req : UploadProfilePhoto)
  | diskWrite (path : String)
  | mutateClient (field : String)
deriving DecidableEq, Repr

def Event.isSaveFile : Event → Bool
  | .saveFile _ => true
  | _ => false

def Event.isInvoke : Event → Bool
  | .invoke _ => true
  | _ => false

/-- The client oracles `set_profile_photo` delegates to: `self.save_file`
(returns an input-file handle or `None`), `self.invoke` (returns the raw
result object, an opaque handle), and Python's `bool(...)` coercion on that
result object. -/
structure Client where
  save_file : Option FileArg → Option Nat
  invoke : UploadProfilePhoto → Nat
  asBool : Nat → Bool

/-- The `emoji_id` local of the source: `None` unless `emoji` is truthy, in
which case it is a `VideoSizeEmojiMarkup` whose `background_colors` come
from `emoji_background` — `None` becomes `[0xFFFFFF]`, a bare `int` is
wrapped into a one-element list, a list is passed through. -/
def emojiMarkup (emoji : Option Int) (emoji_background : PyIntOrList) :
    Option VideoSizeEmojiMarkup :=
  match emoji with
  | some e =>
    if e ≠ 0 then
      let background_colors : List Int :=
        match emoji_background with
        | .none => [0xFFFFFF]
        | .int n => [n]
        | .list l => l
      some { emoji_id := e, background_colors := background_colors }
    else none
  | none => none

/-- Embedding of `SetProfilePhoto.set_profile_photo`.  Returns the boolean
result together with the ordered trace of effects: Python evaluates the
keyword arguments of the `UploadProfilePhoto` constructor left to right, so
`save_file(photo)` runs first, then `save_file(video)`, and `invoke` runs
last, on the fully built request. -/
def set_profile_photo (c : Client) (photo : Option FileArg) (emoji : Option Int)
    (emoji_background : PyIntOrList) (video : Option FileArg)
    (is_public : Option Bool) : Bool × List Event :=
  let emoji_id := emojiMarkup emoji emoji_background
  let fileRes := c.save_file photo
  let videoRes := c.save_file video
  let req : UploadProfilePhoto :=
    { fallback := is_public
      file := fileRes
      video_emoji_markup := emoji_id
      video := videoRes }
  let res := c.invoke req
  (c.asBool res, [Event.saveFile photo, Event.saveFile video, Event.invoke req])

/-- The request objects constructed and passed to `invoke` during one call,
read off the trace. -/
def sentRequests (c : Client) (photo : Option FileArg) (emoji : Option Int)
    (emoji_background : PyIntOrList) (video : Option FileArg)
    (is_public : Option Bool) : List UploadProfilePhoto :=
  (set_profile_photo c photo emoji emoji_background video is_public).2.filterMap
    fun e => match e with
      | .invoke r => some r
      | _ => Option.none

/-- Modelled from the spec: `PartPlanner.plan` is not under `src/`.  "For
known size, part size is chosen from a fixed table"; here the chosen
`part_size` is a parameter and `plan` returns the per-part byte ranges
`[start, stop)`.  "Zero-length source still produces exactly one (empty)
part". -/
def PartPlanner.plan (part_size N : Nat) : List (Nat × Nat) :=
  if N = 0 then [(0, 0)]
  else (List.range ((N + part_size - 1) / part_size)).map
    fun i => (i * part_size, min ((i + 1) * part_size) N)

/-- Modelled from the spec: `UploadState` of UploadSession is not under
`src/`.  "`{ file_id: u64, acknowledged: set of u32, total_parts:
Optional<u32>, is_big: bool }`"; `terminal_index` records, for an
unknown-size source, the index of the recognized terminal short part. -/
structure UploadState where
  file_id : Nat
  acknowledged : Finset Nat
  total_parts : Option Nat
  is_big : Bool
  terminal_index : Option Nat
deriving DecidableEq

/-- Modelled from the spec: acknowledging a part index adds it to the
acknowledgement set. -/
def UploadState.ack (s : UploadState) (i : Nat) : UploadState :=
  { s with acknowledged := insert i s.acknowledged }

/-- Modelled from the spec: "upload is complete iff every index in
`[0, total_parts)` is in `acknowledged` (known-size case) or the terminal
short part has been acknowledged (unknown-size case)". -/
def UploadState.complete (s : UploadState) : Bool :=
  match s.total_parts with
  | some t => decide (Finset.range t ⊆ s.acknowledged)
  | none =>
    match s.terminal_index with
    | some j => decide (j ∈ s.acknowledged)
    | none => false

/-- Modelled from the spec: "RetryPolicy (value, immutable): max attempts,
backoff schedule, and the set of error kinds classified as retryable".
Only the attempt cap matters for the claims settled here. -/
structure RetryPolicy where
  max_attempts : Nat
deriving DecidableEq, Repr

/-- Modelled from the spec: the result of `UploadSession.upload` — a stable
`file_id` on success, or "`UploadFailed{part_index, cause}`" when a part
exhausts its retries. -/
inductive UploadOutcome
  | success (file_id : Nat)
  | uploadFailed (part_index : Nat)
deriving DecidableEq, Repr

/-- Whether part `i` succeeds within the retry budget: `outcome i a` is the
acknowledgement verdict of attempt `a` on part `i`. -/
def partSucceeds (outcome : Nat → Nat → Bool) (policy : RetryPolicy) (i : Nat) : Bool :=
  (List.range policy.max_attempts).any fun a => outcome i a

/-- Modelled from the spec: the per-part loop of `UploadSession.upload`.
Each part is retried up to the policy attempt limit; success acknowledges
the index, exhaustion aborts with the failing index. -/
def uploadParts (outcome : Nat → Nat → Bool) (policy : RetryPolicy) :
    List Nat → UploadState → UploadState × Option Nat
  | [], s => (s, Option.none)
  | i :: rest, s =>
    if partSucceeds outcome policy i then uploadParts outcome policy rest (s.ack i)
    else (s, some i)

/-- Modelled from the spec: the session state at upload start — nothing
acknowledged, the part total fixed from the size, `is_big` decided once
(irrelevant to the claims settled here, fixed to `false`). -/
def UploadState.initial (file_id total : Nat) : UploadState :=
  { file_id := file_id
    acknowledged := ∅
    total_parts := some total
    is_big := false
    terminal_index := Option.none }

/-- Modelled from the spec: `upload(source) -> file_id`, here driven by the
part count and the attempt oracle.  Completion is reported only after the
completion check on the final state passes. -/
def upload (outcome : Nat → Nat → Bool) (policy : RetryPolicy)
    (file_id total : Nat) : UploadOutcome :=
  match uploadParts outcome policy (List.range total)
      (UploadState.initial file_id total) with
  | (_, some i) => .uploadFailed i
  | (s, Option.none) =>
    if s.complete then .success s.file_id else .uploadFailed total

/-- Modelled from the spec: the ConcurrencyLimiter is "a simple counting
semaphore per connection pool"; `inFlight` counts sent-but-unresolved
invocations holding a permit. -/
structure LimiterState where
  capacity : Nat
  inFlight : Nat
deriving DecidableEq, Repr

/-- An event against the limiter: an acquire, or a release on the success
or the failure path of the guarded scope. -/
inductive LimiterEvent
  | acquire
  | releaseSuccess
  | releaseFailure
deriving DecidableEq, Repr

def LimiterState.init (K : Nat) : LimiterState :=
  { capacity := K, inFlight := 0 }

/-- One limiter transition: an acquire grants a permit only when a slot is
free (a caller at capacity stays blocked, so the state is unchanged); a
release returns the permit on success and failure alike. -/
def LimiterState.step (s : LimiterState) : LimiterEvent → LimiterState
  | .acquire =>
    if s.inFlight < s.capacity then { s with inFlight := s.inFlight + 1 } else s
  | .releaseSuccess => { s with inFlight := s.inFlight - 1 }
  | .releaseFailure => { s with inFlight := s.inFlight - 1 }

/-- Run a sequence of limiter events. -/
def LimiterState.run (s : LimiterState) : List LimiterEvent → LimiterState
  | [] => s
  | e :: es => (s.step e).run es

/-- A concrete client used to instantiate the theorems below on closed
inputs. -/
def witnessClient : Client :=
  { save_file := fun _ => some 1
    invoke := fun _ => 1
    asBool := fun n => decide (n ≠ 0) }

/-- C1: every call of `set_profile_photo` constructs exactly one
`raw.functions.photos.UploadProfilePhoto` request, awaits the two helpers
`save_file` (on each media argument) and `invoke`, and returns the boolean
coercion of the invoke result: the returned value equals
`bool(await self.invoke(request))`. -/
theorem set_profile_photo_is_glue (c : Client) (photo : Option FileArg)
    (emoji : Option Int) (bg : PyIntOrList) (video : Option FileArg)
    (pub : Option Bool) :
    ∃ req : UploadProfilePhoto,
      sentRequests c photo emoji bg video pub = [req] ∧
      (set_profile_photo c photo emoji bg video pub).2.countP Event.isInvoke = 1 ∧
      (set_profile_photo c photo emoji bg video pub).2.countP Event.isSaveFile = 2 ∧
      (set_profile_photo c photo emoji bg video pub).1 = c.asBool (c.invoke req) :=
  ⟨_, rfl, rfl, rfl, rfl⟩

/-- C2: with a truthy `emoji`, the background colors entering the request
are normalized to a list: an `int` becomes the one-element list, `None`
becomes the default `[0xFFFFFF]`, a list passes through unchanged. -/
theorem set_profile_photo_background_colors (c : Client) (photo video : Option FileArg)
    (pub : Option Bool) (e : Int) (bg : PyIntOrList) (he : e ≠ 0) :
    ∀ r ∈ sentRequests c photo (some e) bg video pub,
      r.video_emoji_markup =
        some { emoji_id := e
               background_colors :=
                 match bg with
                 | .none => [0xFFFFFF]
                 | .int n => [n]
                 | .list l => l } := by
  intro r hr
  simp only [sentRequests, set_profile_photo, List.filterMap, List.mem_singleton] at hr
  subst hr
  cases bg <;> simp [emojiMarkup, he]

/-- Witness for C2: a concrete call with `emoji = 7` and an `int`
background shows the hypothesis is satisfiable and the normalization
producing the one-element list. -/
theorem set_profile_photo_background_colors_witness :
    (7 : Int) ≠ 0 ∧
    ∀ r ∈ sentRequests witnessClient Option.none (some 7) (PyIntOrList.int 5)
        Option.none Option.none,
      r.video_emoji_markup = some { emoji_id := 7, background_colors := [5] } :=
  ⟨by decide,
    set_profile_photo_background_colors witnessClient Option.none Option.none
      Option.none 7 (PyIntOrList.int 5) (by decide)⟩

/-- C3: the optional semantic parameters are folded into the one
`UploadProfilePhoto` request: `is_public` becomes `fallback`, the emoji
markup becomes `video_emoji_markup`, and the trace shows `invoke` running
only after both `save_file` calls returned, their results placed in the
`file` and `video` fields. -/
theorem set_profile_photo_request_assembly (c : Client) (photo : Option FileArg)
    (emoji : Option Int) (bg : PyIntOrList) (video : Option FileArg)
    (pub : Option Bool) :
    ∃ req : UploadProfilePhoto,
      (set_profile_photo c photo emoji bg video pub).2 =
        [Event.saveFile photo, Event.saveFile video, Event.invoke req] ∧
      req.fallback = pub ∧
      req.video_emoji_markup = emojiMarkup emoji bg ∧
      req.file = c.save_file photo ∧
      req.video = c.save_file video :=
  ⟨_, rfl, rfl, rfl, rfl, rfl⟩

/-- C4: the effect trace of `set_profile_photo` holds nothing but the two
`save_file` calls and the one `invoke`: no disk write, no client or global
mutation appears in any call's trace. -/
theorem set_profile_photo_frame (c : Client) (photo : Option FileArg)
    (emoji : Option Int) (bg : PyIntOrList) (video : Option FileArg)
    (pub : Option Bool) :
    ∀ e ∈ (set_profile_photo c photo emoji bg video pub).2,
      Event.isSaveFile e = true ∨ Event.isInvoke e = true := by
  intro e he
  simp only [set_profile_photo, List.mem_cons, List.not_mem_nil, or_false] at he
  rcases he with h | h | h <;> subst h <;> simp [Event.isSaveFile, Event.isInvoke]

/-- Witness for C4: a concrete event of a concrete call satisfies the
membership hypothesis, and the property holds of it. -/
theorem set_profile_photo_frame_witness :
    Event.saveFile Option.none ∈
      (set_profile_photo witnessClient Option.none Option.none PyIntOrList.none
        Option.none Option.none).2 ∧
    (Event.isSaveFile (Event.saveFile Option.none) = true ∨
      Event.isInvoke (Event.saveFile Option.none) = true) :=
  ⟨by simp [set_profile_photo],
    set_profile_photo_frame witnessClient Option.none Option.none PyIntOrList.none
      Option.none Option.none (Event.saveFile Option.none) (by simp [set_profile_photo])⟩

/-- C9: with a falsy `emoji` (`None` or `0`) no `VideoSizeEmojiMarkup` is
built and `emoji_background` is ignored entirely: the request's
`video_emoji_markup` is `None` for every background value, the whole call
is independent of `emoji_background`, and `emoji = 0` behaves exactly like
`emoji = None`. -/
theorem set_profile_photo_emoji_falsy (c : Client) (photo video : Option FileArg)
    (pub : Option Bool) (emoji : Option Int) (bg : PyIntOrList)
    (h : emoji = Option.none ∨ emoji = some 0) :
    (∀ r ∈ sentRequests c photo emoji bg video pub,
      r.video_emoji_markup = Option.none) ∧
    (∀ bg' : PyIntOrList,
      set_profile_photo c photo emoji bg video pub =
        set_profile_photo c photo emoji bg' video pub) ∧
    set_profile_photo c photo (some 0) bg video pub =
      set_profile_photo c photo Option.none bg video pub := by
  refine ⟨?_, ?_, ?_⟩
  · intro r hr
    simp only [sentRequests, set_profile_photo, List.filterMap, List.mem_singleton] at hr
    subst hr
    rcases h with h | h <;> subst h <;> simp [emojiMarkup]
  · intro bg'
    rcases h with h | h <;> subst h <;> simp [set_profile_photo, emojiMarkup]
  · simp [set_profile_photo, emojiMarkup]

/-- Witness for C9: the concrete call with `emoji = some 0` and an `int`
background has `video_emoji_markup = None` in its one request. -/
theorem set_profile_photo_emoji_falsy_witness :
    ((some 0 : Option Int) = Option.none ∨ (some 0 : Option Int) = some 0) ∧
    ∀ r ∈ sentRequests witnessClient Option.none (some 0) (PyIntOrList.int 5)
        Option.none Option.none,
      r.video_emoji_markup = Option.none :=
  ⟨Or.inr rfl,
    (set_profile_photo_emoji_falsy witnessClient Option.none Option.none
      Option.none (some 0) (PyIntOrList.int 5) (Or.inr rfl)).1⟩

/-- C10: no mutual-exclusion or presence validation: `save_file` is awaited
on both arguments unconditionally (including on `None`), a call with both
`photo` and `video` set populates both the `file` and `video` fields, and
a call with neither still issues both `save_file` calls and the `invoke`
instead of raising. -/
theorem set_profile_photo_no_mutual_exclusion (c : Client) (emoji : Option Int)
    (bg : PyIntOrList) (pub : Option Bool) :
    (∀ p v : FileArg, ∃ req : UploadProfilePhoto,
      (set_profile_photo c (some p) emoji bg (some v) pub).2 =
        [Event.saveFile (some p), Event.saveFile (some v), Event.invoke req] ∧
      req.file = c.save_file (some p) ∧ req.video = c.save_file (some v)) ∧
    (∃ req : UploadProfilePhoto,
      (set_profile_photo c Option.none emoji bg Option.none pub).2 =
        [Event.saveFile Option.none, Event.saveFile Option.none, Event.invoke req] ∧
      (set_profile_photo c Option.none emoji bg Option.none pub).2.countP
        Event.isSaveFile = 2 ∧
      (set_profile_photo c Option.none emoji bg Option.none pub).2.countP
        Event.isInvoke = 1) :=
  ⟨fun _ _ => ⟨_, rfl, rfl, rfl⟩, ⟨_, rfl, rfl, rfl⟩⟩

/-- Counting the occurrences of one value in `List.range n`. -/
theorem countP_range_id (a n : Nat) :
    (List.range n).countP (fun i => decide (i = a)) = if a < n then 1 else 0 := by
  induction n with
  | zero => simp
  | succ n ih =>
    rw [List.range_succ, List.countP_append, ih, List.countP_cons, List.countP_nil]
    by_cases h : n = a
    · subst h
      simp [Nat.lt_irrefl, Nat.lt_succ_self]
    · simp only [h, decide_eq_true_eq, if_false, Nat.add_zero,
        decide_eq_false_iff_not, not_false_eq_true]
      by_cases h2 : a < n
      · rw [if_pos h2, if_pos (by omega)]
      · rw [if_neg h2, if_neg (by omega)]

/-- Every byte below `N` lies in exactly one planned part range. -/
theorem plan_covers_once (ps N b : Nat) (hps : 0 < ps) (hb : b < N) :
    ((PartPlanner.plan ps N).countP fun p => decide (p.1 ≤ b ∧ b < p.2)) = 1 := by
  have hN : N ≠ 0 := by omega
  rw [PartPlanner.plan, if_neg hN, List.countP_map]
  have key : ∀ i ∈ List.range ((N + ps - 1) / ps),
      ((fun p : Nat × Nat => decide (p.1 ≤ b ∧ b < p.2)) ∘
        fun i => (i * ps, min ((i + 1) * ps) N)) i = true ↔
        (fun i => decide (i = b / ps)) i = true := by
    intro i _
    simp only [Function.comp, decide_eq_true_eq]
    constructor
    · rintro ⟨h1, h2⟩
      have h3 : b < (i + 1) * ps := lt_of_lt_of_le h2 (min_le_left _ _)
      exact (Nat.div_eq_of_lt_le h1 h3).symm
    · rintro rfl
      refine ⟨Nat.div_mul_le_self b ps, lt_min ?_ hb⟩
      have hmod : b % ps < ps := Nat.mod_lt b hps
      have hdm : ps * (b / ps) + b % ps = b := Nat.div_add_mod b ps
      calc b = ps * (b / ps) + b % ps := hdm.symm
        _ < ps * (b / ps) + ps := by omega
        _ = (b / ps + 1) * ps := by ring
  rw [List.countP_congr key, countP_range_id, if_pos]
  have h1 : N + ps - 1 = (N - 1) + ps := by omega
  rw [h1, Nat.add_div_right _ hps]
  have h2 : b ≤ N - 1 := by omega
  exact lt_of_le_of_lt (Nat.div_le_div_right h2) (Nat.lt_succ_self _)

/-- C5: with a positive part size, `PartPlanner.plan` covers every byte of
`[0, N)` by exactly one part range, the part count is `ceil(N / part_size)`
for `N ≠ 0`, and a zero-length source yields exactly one empty part. -/
theorem PartPlanner.plan_partitions (ps N : Nat) (hps : 0 < ps) :
    (N ≠ 0 → (PartPlanner.plan ps N).length = (N + ps - 1) / ps) ∧
    PartPlanner.plan ps 0 = [(0, 0)] ∧
    ∀ b, b < N →
      ((PartPlanner.plan ps N).countP fun p => decide (p.1 ≤ b ∧ b < p.2)) = 1 := by
  refine ⟨?_, by simp [PartPlanner.plan], fun b hb => plan_covers_once ps N b hps hb⟩
  intro hN
  rw [PartPlanner.plan, if_neg hN, List.length_map, List.length_range]

/-- Witness for C5: a 10-byte source split into parts of 4 bytes gives
`ceil(10/4) = 3` parts covering each byte once. -/
theorem PartPlanner.plan_partitions_witness :
    0 < 4 ∧
    ((10 ≠ 0 → (PartPlanner.plan 4 10).length = (10 + 4 - 1) / 4) ∧
      PartPlanner.plan 4 0 = [(0, 0)] ∧
      ∀ b, b < 10 →
        ((PartPlanner.plan 4 10).countP fun p => decide (p.1 ≤ b ∧ b < p.2)) = 1) :=
  ⟨by decide, PartPlanner.plan_partitions 4 10 (by decide)⟩

/-- C6: acknowledging an already-acknowledged part index is a no-op: the
second `ack` of the same index leaves the acknowledgement set, the
completion status, and in fact the whole state unchanged. -/
theorem UploadState.ack_idempotent (s : UploadState) (i : Nat) :
    ((s.ack i).ack i).acknowledged = (s.ack i).acknowledged ∧
    ((s.ack i).ack i).complete = (s.ack i).complete ∧
    (s.ack i).ack i = s.ack i := by
  have h : (s.ack i).ack i = s.ack i := by
    simp [UploadState.ack, Finset.insert_idem]
  exact ⟨by rw [h], by rw [h], h⟩

/-- A state with a known part total is complete exactly when `[0, t)` is
inside the acknowledgement set. -/
theorem UploadState.complete_known (s : UploadState) (t : Nat)
    (h : s.total_parts = some t) :
    s.complete = decide (Finset.range t ⊆ s.acknowledged) := by
  cases s with
  | mk fid ack tot big term => cases tot <;> simp_all [UploadState.complete]

/-- If the per-part loop finishes without aborting, every listed part
succeeded within budget, exactly the listed indices were added to the
acknowledgement set, and the identification fields are untouched. -/
theorem uploadParts_finishes (outcome : Nat → Nat → Bool) (policy : RetryPolicy)
    (l : List Nat) :
    ∀ s s' : UploadState, uploadParts outcome policy l s = (s', Option.none) →
      (∀ i ∈ l, partSucceeds outcome policy i = true) ∧
      s'.acknowledged = s.acknowledged ∪ l.toFinset ∧
      s'.file_id = s.file_id ∧ s'.total_parts = s.total_parts ∧
      s'.terminal_index = s.terminal_index := by
  induction l with
  | nil =>
    intro s s' h
    simp only [uploadParts, Prod.mk.injEq] at h
    obtain ⟨rfl, -⟩ := h
    simp
  | cons i rest ih =>
    intro s s' h
    by_cases hp : partSucceeds outcome policy i = true
    · simp only [uploadParts] at h
      rw [if_pos hp] at h
      obtain ⟨h1, h2, h3, h4, h5⟩ := ih (s.ack i) s' h
      refine ⟨?_, ?_, h3, h4, h5⟩
      · intro j hj
        rcases List.mem_cons.mp hj with rfl | hj
        · exact hp
        · exact h1 j hj
      · rw [h2]
        simp [UploadState.ack, List.toFinset_cons, Finset.insert_union,
          Finset.union_insert]
    · simp only [uploadParts] at h
      rw [if_neg hp] at h
      simp at h

/-- If the per-part loop aborts, the reported index is one of the listed
parts and it exhausted its retry budget. -/
theorem uploadParts_aborts (outcome : Nat → Nat → Bool) (policy : RetryPolicy)
    (l : List Nat) :
    ∀ (s s' : UploadState) (j : Nat),
      uploadParts outcome policy l s = (s', some j) →
      j ∈ l ∧ partSucceeds outcome policy j = false := by
  induction l with
  | nil => intro s s' j h; simp [uploadParts] at h
  | cons i rest ih =>
    intro s s' j h
    by_cases hp : partSucceeds outcome policy i = true
    · simp only [uploadParts] at h
      rw [if_pos hp] at h
      obtain ⟨h1, h2⟩ := ih (s.ack i) s' j h
      exact ⟨List.mem_cons_of_mem _ h1, h2⟩
    · simp only [uploadParts] at h
      rw [if_neg hp] at h
      simp only [Prod.mk.injEq, Option.some.injEq] at h
      obtain ⟨-, rfl⟩ := h
      exact ⟨List.mem_cons_self i rest, by simpa using hp⟩

/-- C7: `upload` reports success exactly when every required part index got
a positive acknowledgement within the retry budget, the returned `file_id`
is the stable session id, and a part that exhausts its retries makes the
upload return `UploadFailed` with that part's index, never success. -/
theorem upload_never_reports_incomplete (outcome : Nat → Nat → Bool)
    (policy : RetryPolicy) (fid total : Nat) :
    (upload outcome policy fid total = UploadOutcome.success fid ↔
      ∀ i, i < total → partSucceeds outcome policy i = true) ∧
    (∀ fid', upload outcome policy fid total = UploadOutcome.success fid' →
      fid' = fid) ∧
    (∀ j, upload outcome policy fid total = UploadOutcome.uploadFailed j →
      j < total ∧ partSucceeds outcome policy j = false) := by
  rcases hup : uploadParts outcome policy (List.range total)
    (UploadState.initial fid total) with ⟨s', r⟩
  cases r with
  | some i =>
    obtain ⟨hmem, hfail⟩ :=
      uploadParts_aborts outcome policy (List.range total) _ s' i hup
    have hi : i < total := List.mem_range.mp hmem
    have hupload : upload outcome policy fid total = UploadOutcome.uploadFailed i := by
      unfold upload
      rw [hup]
    refine ⟨?_, ?_, ?_⟩
    · rw [hupload]
      constructor
      · intro h; cases h
      · intro h
        have hcontra := h i hi
        rw [hfail] at hcontra
        cases hcontra
    · intro fid' h
      rw [hupload] at h
      cases h
    · intro j h
      rw [hupload] at h
      injection h with hji
      subst hji
      exact ⟨hi, hfail⟩
  | none =>
    obtain ⟨hall, hack, hfid, htot, -⟩ :=
      uploadParts_finishes outcome policy (List.range total) _ s' hup
    simp only [UploadState.initial] at hfid htot hack
    have hackval : s'.acknowledged = Finset.range total := by
      rw [hack]
      ext x
      simp [List.mem_range]
    have hcomp : s'.complete = true := by
      rw [UploadState.complete_known s' total htot, hackval]
      simp
    have hupload : upload outcome policy fid total = UploadOutcome.success fid := by
      unfold upload
      rw [hup]
      show (if s'.complete then UploadOutcome.success s'.file_id
        else UploadOutcome.uploadFailed total) = UploadOutcome.success fid
      rw [hcomp, if_pos rfl, hfid]
    refine ⟨?_, ?_, ?_⟩
    · exact ⟨fun _ => fun i hi => hall i (List.mem_range.mpr hi), fun _ => hupload⟩
    · intro fid' h
      rw [hupload] at h
      injection h with h
      exact h.symm
    · intro j h
      rw [hupload] at h
      cases h

/-- Each limiter step preserves the capacity and the in-flight bound. -/
theorem limiter_run_invariant (events : List LimiterEvent) :
    ∀ s : LimiterState, s.inFlight ≤ s.capacity →
      (s.run events).inFlight ≤ (s.run events).capacity ∧
      (s.run events).capacity = s.capacity := by
  induction events with
  | nil => intro s h; exact ⟨h, rfl⟩
  | cons e es ih =>
    intro s h
    have hstep : (s.step e).inFlight ≤ (s.step e).capacity ∧
        (s.step e).capacity = s.capacity := by
      cases e with
      | acquire =>
        by_cases hc : s.inFlight < s.capacity <;>
          simp [LimiterState.step, hc] <;> omega
      | releaseSuccess => exact ⟨by simp only [LimiterState.step]; omega, rfl⟩
      | releaseFailure => exact ⟨by simp only [LimiterState.step]; omega, rfl⟩
    obtain ⟨h1, h2⟩ := ih (s.step e) hstep.1
    refine ⟨h1, ?_⟩
    show ((s.step e).run es).capacity = s.capacity
    rw [h2, hstep.2]

/-- C8: from an idle limiter of capacity `K`, after any sequence of
acquire/release events at most `K` permits are held — at most `K`
invocations on the pool are sent-but-unresolved at any point — and the
success and failure release paths are the same transition, so the count
never leaks across error paths. -/
theorem ConcurrencyLimiter_bound (K : Nat) (events : List LimiterEvent) :
    ((LimiterState.init K).run events).inFlight ≤ K ∧
    ∀ s : LimiterState,
      s.step LimiterEvent.releaseSuccess = s.step LimiterEvent.releaseFailure := by
  constructor
  · obtain ⟨h1, h2⟩ := limiter_run_invariant events (LimiterState.init K)
      (by simp [LimiterState.init])
    have hcap : ((LimiterState.init K).run events).capacity = K := by
      simpa [LimiterState.init] using h2
    omega
  · intro s
    rfl
